import Mathlib

/-!
Formal model of the DocsGuard core: the validator, the baseline engine, the
heuristic matcher, the doc-annotation scanner and the markdown section
extractor, translated from the Rust sources.

Modelling conventions:
* Rust `String` / `&str` values are Lean `String`s; slicing and searching are
  carried out on the underlying `List Char`.  Byte indices returned by Rust's
  `str::find` are always used at character boundaries in the source, so
  character indices are an exact model.
* Rust `str::trim` removes Unicode `White_Space` characters from both ends;
  `isRustWhitespace` is that predicate.  `str::to_lowercase` is modelled
  character-wise by `Char.toLower` (the ASCII mapping, which agrees with Rust
  on all ASCII input).
* `Vec::push` loops are modelled by `List.foldl` over the same iteration
  order; `&mut` out-parameters become explicit state passing.
* Filesystem access, YAML parsing, the tree-sitter syntax tree and the
  pulldown-cmark event stream are external inputs; they are modelled as
  explicit input values (a file state, a sibling list, an event list).
* `f64` similarity scores are modelled as exact rationals (`ℚ`); all the
  arithmetic performed on them (subtraction, division, `max`, comparisons)
  is exact in `ℚ`, and the literal `0.80` is modelled as `4/5`.
-/

/-- Unicode White_Space predicate, as used by Rust's `char::is_whitespace`. -/
def isRustWhitespace (c : Char) : Bool :=
  decide ((0x09 ≤ c.toNat ∧ c.toNat ≤ 0x0D) ∨ c.toNat = 0x20 ∨ c.toNat = 0x85 ∨
    c.toNat = 0xA0 ∨ c.toNat = 0x1680 ∨ (0x2000 ≤ c.toNat ∧ c.toNat ≤ 0x200A) ∨
    c.toNat = 0x2028 ∨ c.toNat = 0x2029 ∨ c.toNat = 0x202F ∨ c.toNat = 0x205F ∨
    c.toNat = 0x3000)

/-- Remove White_Space from both ends of a character list (Rust `str::trim`). -/
def trimChars (l : List Char) : List Char :=
  List.rdropWhile isRustWhitespace (l.dropWhile isRustWhitespace)

/-- Rust `str::trim`. -/
def rustTrim (s : String) : String :=
  ⟨trimChars s.data⟩

/-- Rust `str::to_lowercase`, modelled character-wise (ASCII mapping). -/
def rustToLowercase (s : String) : String :=
  ⟨s.data.map Char.toLower⟩

/-- Rust `str::strip_prefix`: `some` of the remainder when `p` is a prefix of `s`. -/
def stripPrefixStr (p s : String) : Option String :=
  if p.data.isPrefixOf s.data then some ⟨s.data.drop p.data.length⟩ else none

/-- Rust `str::strip_suffix`: `some` of the remainder when `p` is a suffix of `s`. -/
def stripSuffixStr (p s : String) : Option String :=
  if p.data.isSuffixOf s.data then some ⟨s.data.take (s.data.length - p.data.length)⟩
  else none

/-- Rust `str::trim_matches('`')`: strip all leading and trailing backticks. -/
def trimBackticks (s : String) : String :=
  ⟨List.rdropWhile (· = '`') (s.data.dropWhile (· = '`'))⟩

/-- Rust `str::split_whitespace`: maximal runs of non-whitespace characters. -/
def rustSplitWhitespace (s : String) : List String :=
  ((s.data.splitOnP isRustWhitespace).filter (· ≠ [])).map fun l => ⟨l⟩

/-- Rust `str::lines`: split on newline, dropping one trailing empty chunk and
a trailing carriage return on each line. -/
def rustLines (s : String) : List String :=
  let chunks := s.data.splitOn '\n'
  let chunks := if chunks.getLast? = some [] then chunks.dropLast else chunks
  chunks.map fun l => ⟨if l.getLast? = some '\r' then l.dropLast else l⟩

/-- Translation of `validator.rs normalize_type`: trim and lowercase, then map
the string/number/boolean/uuid aliases to a canonical name. -/
def normalize_type (type_str : String) : String :=
  let cleaned := rustToLowercase (rustTrim type_str)
  if cleaned ∈ ["string", "str", "&str", "text", "&string"] then "string"
  else if cleaned ∈ ["number", "integer", "int", "i8", "i16", "i32", "i64", "i128",
      "isize", "u8", "u16", "u32", "u64", "u128", "usize", "f32", "f64",
      "float", "double"] then "number"
  else if cleaned ∈ ["boolean", "bool"] then "boolean"
  else if cleaned = "uuid" then "string"
  else cleaned

/-! ## Data model (`core/types.rs`) -/

/-- An argument extracted from code or documentation (`types.rs Arg`). -/
structure Arg where
  name : String
  type_name : Option String
  description : Option String
deriving DecidableEq, Repr

/-- A function-like declaration extracted from source code (`types.rs CodeEntity`). -/
structure CodeEntity where
  name : String
  args : List Arg
  return_type : Option String
  doc_id : Option String
  file_path : String
  line : Nat
deriving DecidableEq, Repr

/-- A marked documentation block (`types.rs DocSection`). -/
structure DocSection where
  id : String
  title : Option String
  args : List Arg
  file_path : String
  line : Nat
deriving DecidableEq, Repr

/-- Severity of a finding (`types.rs Severity`). -/
inductive Severity where
  | Error
  | Warning
  | Info
deriving DecidableEq, Repr

/-- The `Display` rendering of a severity (`types.rs impl Display for Severity`). -/
def severityToString : Severity → String
  | .Error => "Error"
  | .Warning => "Warning"
  | .Info => "Info"

/-- One validation finding (`types.rs ValidationResult`). -/
structure ValidationResult where
  severity : Severity
  message : String
  function_name : Option String
  code_location : Option String
  doc_id : Option String
  hint : Option String
deriving DecidableEq, Repr

/-! ## Validator (`core/validator.rs`) -/

/-- The Info finding pushed for an entity with no `@docs` annotation. -/
def unlinkedFinding (e : CodeEntity) : ValidationResult :=
  { severity := .Info
    message := "Función sin anotación @docs — no está vinculada a documentación."
    function_name := some e.name
    code_location := some (e.file_path ++ ":" ++ toString e.line)
    doc_id := none
    hint := some "Añade `/// @docs: [id]` antes de la función para vincularla." }

/-- The Info finding pushed for a verified entity–section link. -/
def verifiedFinding (e : CodeEntity) (s : DocSection) (location doc_id : String) :
    ValidationResult :=
  { severity := .Info
    message := "Enlace verificado: fn " ++ e.name ++ " <-> sección '" ++
      (s.title.getD s.id) ++ "'"
    function_name := some e.name
    code_location := some location
    doc_id := some doc_id
    hint := none }

/-- The Error finding pushed when a referenced doc id has no section. -/
def notFoundFinding (e : CodeEntity) (location doc_id : String) : ValidationResult :=
  { severity := .Error
    message := "ID de documentación '" ++ doc_id ++ "' no encontrado en el archivo de docs."
    function_name := some e.name
    code_location := some location
    doc_id := some doc_id
    hint := some ("Añade `<!-- @docs-id: " ++ doc_id ++ " -->` en el archivo de documentación.") }

/-- The Warning finding pushed for a section referenced by no entity. -/
def orphanFinding (s : DocSection) : ValidationResult :=
  { severity := .Warning
    message := "Sección de documentación '" ++ (s.title.getD s.id) ++
      "' no está vinculada desde ninguna función."
    function_name := none
    code_location := none
    doc_id := some s.id
    hint := some ("Añade `/// @docs: [" ++ s.id ++ "]` antes de la función correspondiente en el código.") }

/-- The Error finding pushed for a documented argument absent from the code signature. -/
def ghostFinding (e : CodeEntity) (docArgName location doc_id : String) : ValidationResult :=
  { severity := .Error
    message := "Argumento fantasma: '" ++ docArgName ++
      "' está documentado pero no existe en fn " ++ e.name ++ "."
    function_name := some e.name
    code_location := some location
    doc_id := some doc_id
    hint := some ("Elimina '" ++ docArgName ++
      "' de la documentación o añádelo a la firma de la función.") }

/-- The Warning finding pushed for a code argument missing from the documentation. -/
def missingFinding (e : CodeEntity) (codeArgName location doc_id : String) : ValidationResult :=
  { severity := .Warning
    message := "El argumento '" ++ codeArgName ++
      "' existe en código pero falta en la documentación."
    function_name := some e.name
    code_location := some location
    doc_id := some doc_id
    hint := some ("Documenta el argumento '" ++ codeArgName ++ "' en la sección '" ++
      doc_id ++ "'.") }

/-- The Warning finding pushed for a normalized type disagreement, naming both raw
type strings verbatim. -/
def mismatchFinding (e : CodeEntity) (argName code_type doc_type location doc_id : String) :
    ValidationResult :=
  { severity := .Warning
    message := "Type mismatch en argumento '" ++ argName ++ "': código tiene '" ++
      code_type ++ "', docs dice '" ++ doc_type ++ "'."
    function_name := some e.name
    code_location := some location
    doc_id := some doc_id
    hint := some ("Actualiza el tipo de '" ++ argName ++ "' en la documentación a '" ++
      code_type ++ "' (o verifica si es un alias válido).") }

/-- Translation of `validator.rs check_type_mismatch`: the `&mut Vec` becomes an
explicit accumulator. -/
def check_type_mismatch (e : CodeEntity) (code_arg doc_arg : Arg) (location doc_id : String)
    (results : List ValidationResult) : List ValidationResult :=
  match code_arg.type_name with
  | none => results
  | some code_type =>
    match doc_arg.type_name with
    | none => results
    | some doc_type =>
      if normalize_type code_type ≠ normalize_type doc_type then
        results ++ [mismatchFinding e code_arg.name code_type doc_type location doc_id]
      else results

/-- Translation of `validator.rs validate_args`: two push loops over the documented
and the code arguments. -/
def validate_args (e : CodeEntity) (s : DocSection) (location : String)
    (results : List ValidationResult) : List ValidationResult :=
  let doc_id := e.doc_id.getD "?"
  let results := s.args.foldl (fun acc doc_arg =>
    match e.args.find? (fun a => a.name == doc_arg.name) with
    | none => acc ++ [ghostFinding e doc_arg.name location doc_id]
    | some code_arg => check_type_mismatch e code_arg doc_arg location doc_id acc) results
  e.args.foldl (fun acc code_arg =>
    if s.args.any (fun a => a.name == code_arg.name) then acc
    else acc ++ [missingFinding e code_arg.name location doc_id]) results

/-- The pushes performed for one linked entity: a verified-link Info plus argument
reconciliation when a section matches, an Error otherwise (`validate_links`, middle loop). -/
def linkedStep (doc_sections : List DocSection) (acc : List ValidationResult)
    (e : CodeEntity) : List ValidationResult :=
  match e.doc_id with
  | none => acc
  | some doc_id =>
    let location := e.file_path ++ ":" ++ toString e.line
    match doc_sections.find? (fun s => s.id == doc_id) with
    | some s =>
      let acc := acc ++ [verifiedFinding e s location doc_id]
      if ¬s.args.isEmpty ∨ ¬e.args.isEmpty then validate_args e s location acc else acc
    | none => acc ++ [notFoundFinding e location doc_id]

/-- Translation of `validator.rs validate_links`: three sequential push loops over
one results vector. -/
def validate_links (code_entities : List CodeEntity) (doc_sections : List DocSection) :
    List ValidationResult :=
  let results : List ValidationResult := []
  let results := (code_entities.filter fun e => e.doc_id.isNone).foldl
    (fun acc e => acc ++ [unlinkedFinding e]) results
  let results := (code_entities.filter fun e => e.doc_id.isSome).foldl
    (linkedStep doc_sections) results
  doc_sections.foldl (fun acc s =>
    if code_entities.any (fun e => e.doc_id == some s.id) then acc
    else acc ++ [orphanFinding s]) results

/-! ## Baseline engine (`baseline/mod.rs`) -/

/-- One entry of the persisted baseline (`baseline/mod.rs BaselineEntry`);
equality is over all four fields, as derived in the source. -/
structure BaselineEntry where
  severity : String
  function_name : Option String
  doc_id : Option String
  message_fingerprint : String
deriving DecidableEq, Repr

/-- The persisted baseline file contents (`baseline/mod.rs Baseline`). -/
structure Baseline where
  version : String
  generated_at : String
  entries : List BaselineEntry
deriving DecidableEq, Repr

/-- Translation of `make_fingerprint`: join the first 6 whitespace-separated
tokens of the message with single spaces. -/
def make_fingerprint (message : String) : String :=
  String.intercalate " " ((rustSplitWhitespace message).take 6)

/-- The `BaselineEntry` built from one finding; this expression appears verbatim
in both `Baseline::from_results` and `filter_baseline`. -/
def resultEntry (r : ValidationResult) : BaselineEntry :=
  { severity := severityToString r.severity
    function_name := r.function_name
    doc_id := r.doc_id
    message_fingerprint := make_fingerprint r.message }

/-- Translation of `Baseline::from_results`; the generation timestamp comes from
the system clock and is passed in as an explicit input. -/
def Baseline.from_results (results : List ValidationResult) (generated_at : String) :
    Baseline :=
  { version := "1"
    generated_at := generated_at
    entries := (results.filter fun r => r.severity != Severity.Info).map resultEntry }

/-- Translation of `filter_baseline`: Info findings always pass, findings whose
entry is in the baseline set are dropped and counted, the rest pass through.
The `HashSet` membership test is list membership over the structurally equal
entries. -/
def filter_baseline (results : List ValidationResult) (baseline : Baseline) :
    List ValidationResult × Nat :=
  let known := baseline.entries
  results.foldl (fun acc r =>
    if r.severity = Severity.Info then (acc.1 ++ [r], acc.2)
    else if known.contains (resultEntry r) then (acc.1, acc.2 + 1)
    else (acc.1 ++ [r], acc.2)) ([], 0)

/-- The possible states of the baseline file on disk; the filesystem and the
YAML decoder are external, so `Baseline::load` is modelled over this input. -/
inductive BaselineFileState where
  | absent
  | unreadable
  | unparsable
  | parsed (b : Baseline)
deriving DecidableEq, Repr

/-- Translation of the control flow of `Baseline::load`: a missing file yields
no baseline, a read or parse failure is an error, and a parsed baseline whose
version differs from "1" is rejected. -/
def baselineLoad : BaselineFileState → Except String (Option Baseline)
  | .absent => .ok none
  | .unreadable => .error "No se pudo leer el baseline"
  | .unparsable => .error "Error al parsear el baseline"
  | .parsed b =>
    if b.version ≠ "1" then
      .error ("Versión de baseline no soportada: '" ++ b.version ++ "' (esperada: '1')")
    else .ok (some b)

/-! ## Heuristic matcher (`core/heuristic.rs`, similarity from the strsim crate) -/

/-- A suggested entity–section link (`heuristic.rs CandidateLink`).  The `f64`
confidence is modelled as an exact rational. -/
structure CandidateLink where
  entity_index : Nat
  function_name : String
  code_location : String
  section_index : Nat
  section_id : String
  section_title : String
  confidence : ℚ
deriving DecidableEq, Repr

/-- Minimum confidence for a suggestion (`heuristic.rs MIN_CONFIDENCE = 0.80`). -/
def MIN_CONFIDENCE : ℚ := mkRat 4 5

/-- Translation of strsim's `generic_levenshtein` row loop: a cache row of
distances is threaded through both character iterations. -/
def levenshteinDist (a b : List Char) : Nat :=
  let init : List Nat × Nat := (List.range' 1 b.length, b.length)
  let final := a.enum.foldl (fun (st : List Nat × Nat) (p : Nat × Char) =>
    let inner := (b.zip st.1).foldl
      (fun (q : Nat × Nat × List Nat) (r : Char × Nat) =>
        let cost := if p.2 ≠ r.1 then 1 else 0
        let distance_a := q.2.1 + cost
        let distance_b := r.2
        let result := min (q.1 + 1) (min distance_a (distance_b + 1))
        (result, distance_b, q.2.2 ++ [result]))
      (p.1 + 1, p.1, [])
    (inner.2.2, inner.1)) init
  final.2

/-- Translation of strsim's `normalized_levenshtein`, with the `f64` expression
`1 - d / max` carried out exactly in `ℚ` as the fraction `(max - d) / max`
(equal values; in the second branch `max` is at least 1). -/
def normalized_levenshtein (a b : String) : ℚ :=
  if a.data.isEmpty ∧ b.data.isEmpty then 1
  else
    let m := max a.data.length b.data.length
    Rat.divInt ((m : Int) - (levenshteinDist a.data b.data : Int)) (m : Int)

/-- Translation of `heuristic.rs normalize_name`: lowercase, replace the
separators `-`, `_`, `.` by spaces, collapse whitespace runs. -/
def normalize_name (name : String) : String :=
  let lowered := rustToLowercase name
  let replaced : String :=
    ⟨lowered.data.map fun c => if c = '-' ∨ c = '_' ∨ c = '.' then ' ' else c⟩
  String.intercalate " " (rustSplitWhitespace replaced)

/-- Translation of `heuristic.rs compute_confidence`: the larger of the
similarities of the normalized function name against the normalized section id
and against the normalized section title (0 when absent). -/
def compute_confidence (function_name : String) (s : DocSection) : ℚ :=
  let fn_normalized := normalize_name function_name
  let id_similarity := normalized_levenshtein fn_normalized (normalize_name s.id)
  let title_similarity :=
    (s.title.map fun t => normalized_levenshtein fn_normalized (normalize_name t)).getD 0
  max id_similarity title_similarity

/-- The candidate record built for one entity–section pair (`find_candidates`). -/
def candidateFor (ei : Nat) (e : CodeEntity) (si : Nat) (s : DocSection)
    (confidence : ℚ) : CandidateLink :=
  { entity_index := ei
    function_name := e.name
    code_location := e.file_path ++ ":" ++ toString e.line
    section_index := si
    section_id := s.id
    section_title := s.title.getD s.id
    confidence := confidence }

/-- The inner loop of `find_candidates`: fold over the unlinked sections keeping
the best candidate, a strict comparison so that the first section wins ties. -/
def bestMatchFor (unlinked_sections : List (Nat × DocSection)) (ei : Nat)
    (e : CodeEntity) : Option CandidateLink :=
  unlinked_sections.foldl (fun best p =>
    let confidence := compute_confidence e.name p.2
    if MIN_CONFIDENCE ≤ confidence then
      match best with
      | none => some (candidateFor ei e p.1 p.2 confidence)
      | some b =>
        if b.confidence < confidence then some (candidateFor ei e p.1 p.2 confidence)
        else some b
    else best) none

/-- Translation of `heuristic.rs find_candidates`.  Rust's stable `sort_by` in
descending confidence order is modelled by the stable insertion sort. -/
def find_candidates (code_entities : List CodeEntity) (doc_sections : List DocSection) :
    List CandidateLink :=
  let unlinked_entities := code_entities.enum.filter fun p => p.2.doc_id.isNone
  let unlinked_sections := doc_sections.enum.filter fun p =>
    !(code_entities.any fun e => e.doc_id == some p.2.id)
  let candidates := unlinked_entities.foldl (fun acc p =>
    acc ++ (bestMatchFor unlinked_sections p.1 p.2).toList) []
  candidates.insertionSort fun a b => b.confidence ≤ a.confidence

/-! ## Doc-annotation scan (`parser/code_parser.rs`) -/

/-- One preceding sibling of the declaration in the syntax tree: its node kind,
its 0-based start row and its source text.  The tree-sitter tree is external,
so the scan is modelled over the sibling list in source order. -/
structure SiblingNode where
  kind : String
  row : Nat
  text : String
deriving DecidableEq, Repr

/-- Translation of `extract_docs_id_from_comment`: strip a `///` or `//` prefix,
then match `@docs:` followed by an identifier optionally wrapped in brackets;
an empty identifier yields nothing. -/
def extract_docs_id_from_comment (comment : String) : Option String :=
  let trimmed := rustTrim comment
  let content? :=
    match stripPrefixStr "///" trimmed with
    | some rest => some rest
    | none => stripPrefixStr "//" trimmed
  match content? with
  | none => none
  | some content =>
    let content := rustTrim content
    match stripPrefixStr "@docs:" content with
    | none => none
    | some after_docs =>
      let id_part := rustTrim after_docs
      let id :=
        if id_part.data.head? = some '[' ∧ id_part.data.getLast? = some ']' then
          (⟨(id_part.data.drop 1).dropLast⟩ : String)
        else id_part
      let id := rustTrim id
      if id.data.isEmpty then none else some id

/-- The loop body of `find_docs_annotation` over the reversed sibling list:
skip nodes at or after the declaration row, stop on a line gap above 2 or on a
non-comment node, return the first comment carrying an annotation. -/
def findDocsAux (funcStart : Nat) (commentKind : String) :
    Nat → List SiblingNode → Option String
  | _, [] => none
  | prevRow, sib :: rest =>
    if sib.row ≥ funcStart then findDocsAux funcStart commentKind prevRow rest
    else if prevRow - sib.row > 2 then none
    else if sib.kind = commentKind then
      match extract_docs_id_from_comment sib.text with
      | some id => some id
      | none => findDocsAux funcStart commentKind sib.row rest
    else none

/-- Translation of `find_docs_annotation`: walk the parent's children in reverse
source order, starting the gap measurement at the declaration's own row. -/
def find_docs_annotation (funcStart : Nat) (siblings : List SiblingNode)
    (commentKind : String) : Option String :=
  findDocsAux funcStart commentKind funcStart siblings.reverse

/-- Modelled from the spec: scanning backward through the line-order-contiguous
comment siblings that precede the declaration, stopping at the first
non-comment sibling or when the line gap between two consecutive candidates
exceeds 2, and returning the nearest annotation match. -/
def docsScanSpec (commentKind : String) : Nat → List SiblingNode → Option String
  | _, [] => none
  | prevRow, sib :: rest =>
    if prevRow - sib.row > 2 then none
    else if sib.kind ≠ commentKind then none
    else
      match extract_docs_id_from_comment sib.text with
      | some id => some id
      | none => docsScanSpec commentKind sib.row rest

/-! ## Markdown section extraction (`parser/doc_parser.rs`) -/

/-- Translation of `extract_docs_id_from_html`: an HTML comment whose trimmed
body starts with `@docs-id:` followed by a non-empty identifier. -/
def extract_docs_id_from_html (html : String) : Option String :=
  match stripPrefixStr "<!--" html with
  | none => none
  | some c1 =>
    match stripSuffixStr "-->" c1 with
    | none => none
    | some c2 =>
      let content := rustTrim c2
      match stripPrefixStr "@docs-id:" content with
      | none => none
      | some after =>
        let id := rustTrim after
        if id.data.isEmpty then none else some id

/-- Translation of `parse_list_item_as_arg`. -/
def parse_list_item_as_arg (text0 : String) : Option Arg :=
  let text := rustTrim text0
  if text.data.isEmpty then none
  else if "**".data.isPrefixOf text.data ∨
      (text.data.head? = some '*' ∧ ¬ "* ".data.isPrefixOf text.data) then none
  else
    let namePart? : Option (String × String) :=
      match stripPrefixStr "`" text with
      | some stripped =>
        match stripped.data.findIdx? (· = '`') with
        | none => none
        | some endIdx =>
          some (⟨stripped.data.take endIdx⟩, ⟨stripped.data.drop (endIdx + 1)⟩)
      | none =>
        match text.data.findIdx? (· = ':') with
        | none => none
        | some colonPos =>
          let nm := rustTrim ⟨text.data.take colonPos⟩
          match nm.data.findIdx? (· = '(') with
          | some parenPos => some (⟨text.data.take parenPos⟩, ⟨text.data.drop parenPos⟩)
          | none => some (nm, ⟨text.data.drop colonPos⟩)
    match namePart? with
    | none => none
    | some (name_part, rest0) =>
      let nm := rustTrim name_part
      if nm.data.isEmpty then none
      else
        let rest := rustTrim rest0
        let td : Option String × Option String :=
          if rest.data.head? = some '(' then
            match rest.data.findIdx? (· = ')') with
            | some closeParen =>
              let type_str := trimBackticks (rustTrim ⟨(rest.data.take closeParen).drop 1⟩)
              let desc := rustTrim ⟨rest.data.drop (closeParen + 1)⟩
              let desc := (stripPrefixStr ":" desc).getD desc
              let desc := (stripPrefixStr "—" desc).getD desc
              let desc := (stripPrefixStr "-" desc).getD desc
              (some type_str, some (rustTrim desc))
            | none => (none, some rest)
          else
            match stripPrefixStr ":" rest with
            | some stripped => (none, some (rustTrim stripped))
            | none => (none, if rest.data.isEmpty then none else some rest)
        some { name := nm, type_name := td.1,
               description := td.2.filter fun d => !d.data.isEmpty }

/-- Rust `str::contains` on another string: substring containment. -/
def containsSubstr (hay needle : List Char) : Bool :=
  (List.range (hay.length + 1)).any fun i => needle.isPrefixOf (hay.drop i)

/-- The header-column search of `parse_table_row_as_arg`: the first header whose
lowercased text contains one of the given names. -/
def find_col (headers : List String) (names : List String) : Option Nat :=
  headers.findIdx? fun h =>
    names.any fun n => containsSubstr (rustToLowercase h).data n.data

/-- Translation of `parse_table_row_as_arg`. -/
def parse_table_row_as_arg (headers row : List String) : Option Arg :=
  if row.isEmpty then none
  else
    let name_col := (find_col headers ["name", "param", "arg", "nombre"]).getD 0
    let type_col := find_col headers ["type", "tipo"]
    let desc_col := find_col headers ["desc", "descripción", "description"]
    match row.get? name_col with
    | none => none
    | some nameCell =>
      let nm := trimBackticks (rustTrim nameCell)
      if nm.data.isEmpty then none
      else
        some { name := nm
               type_name := ((type_col.bind row.get?).map fun t =>
                   trimBackticks (rustTrim t)).filter fun t => !t.data.isEmpty
               description := ((desc_col.bind row.get?).map rustTrim).filter
                 fun d => !d.data.isEmpty }

/-- Translation of `parse_definition_as_arg`: only a line opening with a
backtick-quoted single-token name followed by `(type)` or `:` is captured. -/
def parse_definition_as_arg (line0 : String) : Option Arg :=
  let line := rustTrim line0
  if line.data.isEmpty then none
  else
    match stripPrefixStr "`" line with
    | none => none
    | some stripped =>
      match stripped.data.findIdx? (· = '`') with
      | none => none
      | some endIdx =>
        let nm := rustTrim ⟨stripped.data.take endIdx⟩
        if nm.data.isEmpty ∨ nm.data.contains ' ' then none
        else
          let rest := rustTrim ⟨stripped.data.drop (endIdx + 1)⟩
          let td? : Option (Option String × Option String) :=
            if rest.data.head? = some '(' then
              match rest.data.findIdx? (· = ')') with
              | some closeParen =>
                let type_str := trimBackticks (rustTrim ⟨(rest.data.take closeParen).drop 1⟩)
                let desc := rustTrim ⟨rest.data.drop (closeParen + 1)⟩
                let desc := (stripPrefixStr ":" desc).getD desc
                let desc := (stripPrefixStr "—" desc).getD desc
                let desc := (stripPrefixStr "-" desc).getD desc
                some (some type_str, some (rustTrim desc))
              | none => some (none, some rest)
            else
              match stripPrefixStr ":" rest with
              | some stripped2 => some (none, some (rustTrim stripped2))
              | none => none
          match td? with
          | none => none
          | some td =>
            some { name := nm, type_name := td.1,
                   description := td.2.filter fun d => !d.data.isEmpty }

/-- The pulldown-cmark events handled by `parse_markdown_source`; every
unhandled event is `other`.  The parser itself is external: the extractor is
modelled over the event list, each event paired with its 1-based source line. -/
inductive MdEvent where
  | html (content : String)
  | startHeading
  | endHeading
  | startParagraph
  | endParagraph
  | startItem
  | endItem
  | startTable
  | endTable
  | startTableHead
  | endTableHead
  | startTableRow
  | endTableRow
  | startTableCell
  | endTableCell
  | softBreak
  | hardBreak
  | text (content : String)
  | code (content : String)
  | other
deriving DecidableEq, Repr

/-- The `DocSection` record pushed when the open section is closed, both on a
new marker and at end of input. -/
def closedSection (file_path : String) (sections_id : String) (title : Option String)
    (args : List Arg) (line : Nat) : DocSection :=
  { id := sections_id, title := title, args := args, file_path := file_path, line := line }

/-- The mutable locals of `parse_markdown_source`, gathered into one state. -/
structure MdState where
  sections : List DocSection
  current_id : Option String
  current_title : Option String
  in_heading : Bool
  heading_text : String
  current_args : List Arg
  current_line : Nat
  in_list_item : Bool
  list_item_text : String
  in_paragraph : Bool
  paragraph_text : String
  table_row : List String
  table_headers : List String
  in_table_head : Bool
  in_table_cell : Bool
  cell_text : String
deriving DecidableEq, Repr

/-- The initial state of the extraction loop. -/
def initMdState : MdState :=
  { sections := [], current_id := none, current_title := none, in_heading := false,
    heading_text := "", current_args := [], current_line := 0, in_list_item := false,
    list_item_text := "", in_paragraph := false, paragraph_text := "",
    table_row := [], table_headers := [], in_table_head := false,
    in_table_cell := false, cell_text := "" }

/-- Translation of the event match of `parse_markdown_source`. -/
def mdStep (file_path : String) (st : MdState) (ev : MdEvent × Nat) : MdState :=
  match ev.1 with
  | .html htmlText =>
    match extract_docs_id_from_html (rustTrim htmlText) with
    | some id =>
      let st :=
        match st.current_id with
        | some prev_id =>
          { st with
            sections := st.sections ++
              [closedSection file_path prev_id st.current_title st.current_args
                st.current_line],
            current_title := none, current_args := [] }
        | none => st
      { st with current_id := some id, current_line := ev.2 }
    | none => st
  | .startHeading => { st with in_heading := true, heading_text := "" }
  | .endHeading =>
    let st := { st with in_heading := false }
    if st.current_id.isSome ∧ st.current_title.isNone then
      { st with current_title := some (rustTrim st.heading_text) }
    else st
  | .startParagraph => { st with in_paragraph := true, paragraph_text := "" }
  | .endParagraph =>
    let st := { st with in_paragraph := false }
    if st.current_id.isSome ∧ ¬ st.in_list_item then
      { st with current_args := st.current_args ++
          (rustLines st.paragraph_text).filterMap parse_definition_as_arg }
    else st
  | .startItem => { st with in_list_item := true, list_item_text := "" }
  | .endItem =>
    let st := { st with in_list_item := false }
    if st.current_id.isSome then
      match parse_list_item_as_arg st.list_item_text with
      | some arg => { st with current_args := st.current_args ++ [arg] }
      | none => st
    else st
  | .startTable => { st with table_headers := [] }
  | .endTable => st
  | .startTableHead => { st with in_table_head := true, table_row := [] }
  | .endTableHead =>
    { st with in_table_head := false, table_headers := st.table_row, table_row := [] }
  | .startTableRow => { st with table_row := [] }
  | .endTableRow =>
    if ¬ st.in_table_head ∧ st.current_id.isSome ∧ ¬ st.table_row.isEmpty then
      match parse_table_row_as_arg st.table_headers st.table_row with
      | some arg => { st with current_args := st.current_args ++ [arg] }
      | none => st
    else st
  | .startTableCell => { st with in_table_cell := true, cell_text := "" }
  | .endTableCell =>
    { st with
      in_table_cell := false
      table_row := st.table_row ++ [rustTrim st.cell_text] }
  | .softBreak =>
    if st.in_paragraph then { st with paragraph_text := st.paragraph_text ++ "\n" } else st
  | .hardBreak =>
    if st.in_paragraph then { st with paragraph_text := st.paragraph_text ++ "\n" } else st
  | .text t =>
    if st.in_heading then { st with heading_text := st.heading_text ++ t }
    else if st.in_list_item then { st with list_item_text := st.list_item_text ++ t }
    else if st.in_table_cell then { st with cell_text := st.cell_text ++ t }
    else if st.in_paragraph then { st with paragraph_text := st.paragraph_text ++ t }
    else st
  | .code c =>
    if st.in_heading then { st with heading_text := st.heading_text ++ c }
    else if st.in_list_item then
      { st with list_item_text := st.list_item_text ++ "`" ++ c ++ "`" }
    else if st.in_table_cell then { st with cell_text := st.cell_text ++ c }
    else if st.in_paragraph then
      { st with paragraph_text := st.paragraph_text ++ "`" ++ c ++ "`" }
    else st
  | .other => st

/-- Translation of `parse_markdown_source` over the event stream: fold the event
match over the events, then close the last open section. -/
def parse_markdown_events (file_path : String) (events : List (MdEvent × Nat)) :
    List DocSection :=
  let st := events.foldl (mdStep file_path) initMdState
  match st.current_id with
  | some id =>
    st.sections ++
      [closedSection file_path id st.current_title st.current_args st.current_line]
  | none => st.sections

/-- The marker id carried by one event: the id extracted when the event is an
inline HTML comment bearing a `@docs-id:` annotation. -/
def markerId : MdEvent × Nat → Option String
  | (.html htmlText, _) => extract_docs_id_from_html (rustTrim htmlText)
  | _ => none

/-! ## Proof fixtures and auxiliary definitions -/

/-- The per-documented-argument contribution of the first loop of `validate_args`. -/
def docArgContrib (e : CodeEntity) (loc did : String) (d : Arg) : List ValidationResult :=
  match e.args.find? (fun a => a.name == d.name) with
  | none => [ghostFinding e d.name loc did]
  | some ca => check_type_mismatch e ca d loc did []

/-- Scenario A/B entity: `login` linked to `auth-login`. -/
def entLogin : CodeEntity :=
  { name := "login", args := [], return_type := none, doc_id := some "auth-login",
    file_path := "test.ts", line := 1 }

/-- Scenario A/C section: `auth-login`, titled Login. -/
def secLogin : DocSection :=
  { id := "auth-login", title := some "Login", args := [], file_path := "test.md", line := 1 }

/-- Scenario E entity: code argument `tenant_id` of type `string`. -/
def entTenant : CodeEntity :=
  { name := "login"
    args := [{ name := "tenant_id", type_name := some "string", description := none }]
    return_type := none, doc_id := some "auth-login", file_path := "test.ts", line := 1 }

/-- Scenario E section: documented argument `tenant_id` of type `Integer`. -/
def secTenant : DocSection :=
  { id := "auth-login", title := some "Login"
    args := [{ name := "tenant_id", type_name := some "Integer", description := none }]
    file_path := "test.md", line := 1 }

/-- Scenario E entity: code argument `name` of type `&str`. -/
def entGreet : CodeEntity :=
  { name := "greet"
    args := [{ name := "name", type_name := some "&str", description := none }]
    return_type := none, doc_id := some "greet-fn", file_path := "test.ts", line := 1 }

/-- Scenario E section: documented argument `name` of type `String`. -/
def secGreet : DocSection :=
  { id := "greet-fn", title := some "Greet"
    args := [{ name := "name", type_name := some "String", description := none }]
    file_path := "test.md", line := 1 }

/-- Scenario F finding A: a known Error. -/
def findA : ValidationResult :=
  { severity := .Error
    message := "ID de documentación 'auth-login' no encontrado en el archivo de docs."
    function_name := some "login", code_location := none
    doc_id := some "auth-login", hint := none }

/-- Scenario F finding B: a known Warning. -/
def findB : ValidationResult :=
  { severity := .Warning
    message := "Sección de documentación 'Logout' no está vinculada desde ninguna función."
    function_name := none, code_location := none
    doc_id := some "auth-logout", hint := none }

/-- Scenario F finding C: a new Error absent from the baseline. -/
def findC : ValidationResult :=
  { severity := .Error
    message := "Este es un error nuevo que no estaba antes."
    function_name := some "new_fn", code_location := none
    doc_id := some "new-id", hint := none }

/-- A version-"2" baseline record. -/
def baseV2 : Baseline :=
  { version := "2", generated_at := "unix:0", entries := [] }

/-- A version-"1" baseline record. -/
def baseV1 : Baseline :=
  { version := "1", generated_at := "unix:0", entries := [] }

/-- A word list entry that `split_whitespace` reproduces: non-empty and free of
whitespace characters. -/
def goodWord (w : String) : Prop :=
  w.data ≠ [] ∧ ∀ c ∈ w.data, ¬isRustWhitespace c

/-- The word list with each entry preceded by the separator. -/
def sepJoin (sep : String) : List String → String
  | [] => ""
  | a :: as => sep ++ a ++ sepJoin sep as

/-- The word chunks of a character list: the split on whitespace with empty
chunks removed. -/
def wordsOf (l : List Char) : List (List Char) :=
  (l.splitOnP isRustWhitespace).filter (· ≠ [])

/-- The confidence of one unlinked-section candidate pair. -/
def heurConf (e : CodeEntity) (p : Nat × DocSection) : ℚ :=
  compute_confidence e.name p.2

/-- The loop body of `bestMatchFor`, named for the induction. -/
def heurStep (ei : Nat) (e : CodeEntity) (best : Option CandidateLink)
    (p : Nat × DocSection) : Option CandidateLink :=
  let confidence := heurConf e p
  if MIN_CONFIDENCE ≤ confidence then
    match best with
    | none => some (candidateFor ei e p.1 p.2 confidence)
    | some b =>
      if b.confidence < confidence then some (candidateFor ei e p.1 p.2 confidence)
      else some b
  else best

/-- An unlinked entity named login used by the C5 witness. -/
def entPlainLogin : CodeEntity :=
  { name := "login", args := [], return_type := none, doc_id := none,
    file_path := "t.rs", line := 1 }

/-- An unreferenced section whose id equals the entity name. -/
def secSelfLogin : DocSection :=
  { id := "login", title := none, args := [], file_path := "t.md", line := 1 }

/-- The candidate produced for that pair, at full confidence. -/
def candSelf : CandidateLink :=
  { entity_index := 0, function_name := "login", code_location := "t.rs:1",
    section_index := 0, section_id := "login", section_title := "login",
    confidence := 1 }

/-! ## Helper lemmas -/

theorem foldl_push_eq {α β : Type} (f : List β → α → List β) (g : α → List β)
    (hf : ∀ acc x, f acc x = acc ++ g x) :
    ∀ (l : List α) (acc : List β), l.foldl f acc = acc ++ l.flatMap g := by
  intro l
  induction l with
  | nil => intro acc; simp
  | cons x xs ih =>
    intro acc
    simp only [List.foldl_cons, List.flatMap_cons, hf]
    rw [ih, List.append_assoc]

theorem flatMap_ite_nil {α β : Type} (p : α → Bool) (g : α → β) (l : List α) :
    (l.flatMap fun x => if p x then [] else [g x]) =
      (l.filter fun x => !p x).map g := by
  induction l with
  | nil => rfl
  | cons x xs ih => by_cases h : p x <;> simp [h, ih]

theorem flatMap_singleton_eq_map {α β : Type} (g : α → β) (l : List α) :
    (l.flatMap fun x => [g x]) = l.map g := by
  induction l with
  | nil => rfl
  | cons x xs ih => simp [ih]

theorem check_type_mismatch_acc (e : CodeEntity) (ca da : Arg) (loc did : String)
    (acc : List ValidationResult) :
    check_type_mismatch e ca da loc did acc = acc ++ check_type_mismatch e ca da loc did [] := by
  unfold check_type_mismatch
  cases hc : ca.type_name with
  | none => simp
  | some ct =>
    cases hd : da.type_name with
    | none => simp
    | some dt => by_cases hne : normalize_type ct ≠ normalize_type dt <;> simp [hne]

theorem validate_args_eq (e : CodeEntity) (s : DocSection) (loc : String)
    (acc : List ValidationResult) :
    validate_args e s loc acc = acc
      ++ s.args.flatMap (docArgContrib e loc (e.doc_id.getD "?"))
      ++ (e.args.filter fun c => !(s.args.any fun a => a.name == c.name)).map
          (fun c => missingFinding e c.name loc (e.doc_id.getD "?")) := by
  unfold validate_args
  have h1 : ∀ (acc' : List ValidationResult) (d : Arg),
      (match e.args.find? (fun a => a.name == d.name) with
        | none => acc' ++ [ghostFinding e d.name loc (e.doc_id.getD "?")]
        | some code_arg =>
          check_type_mismatch e code_arg d loc (e.doc_id.getD "?") acc') =
      acc' ++ docArgContrib e loc (e.doc_id.getD "?") d := by
    intro acc' d
    unfold docArgContrib
    cases hf : e.args.find? (fun a => a.name == d.name) with
    | none => simp
    | some ca => simpa using check_type_mismatch_acc e ca d loc (e.doc_id.getD "?") acc'
  have h2 : ∀ (acc' : List ValidationResult) (c : Arg),
      (if s.args.any (fun a => a.name == c.name) then acc'
        else acc' ++ [missingFinding e c.name loc (e.doc_id.getD "?")]) =
      acc' ++ (if s.args.any (fun a => a.name == c.name) then []
        else [missingFinding e c.name loc (e.doc_id.getD "?")]) := by
    intro acc' c
    by_cases h : s.args.any (fun a => a.name == c.name) <;> simp [h]
  rw [foldl_push_eq _ _ h2, foldl_push_eq _ _ h1, flatMap_ite_nil, List.append_assoc]

theorem validate_args_acc (e : CodeEntity) (s : DocSection) (loc : String)
    (acc : List ValidationResult) :
    validate_args e s loc acc = acc ++ validate_args e s loc [] := by
  rw [validate_args_eq, validate_args_eq e s loc []]
  simp [List.append_assoc]

theorem linkedStep_acc (dss : List DocSection) (acc : List ValidationResult)
    (e : CodeEntity) :
    linkedStep dss acc e = acc ++ linkedStep dss [] e := by
  unfold linkedStep
  cases hd : e.doc_id with
  | none => simp
  | some did =>
    cases hf : dss.find? (fun s => s.id == did) with
    | none => simp [hf]
    | some s =>
      simp only [hf]
      by_cases hargs : ¬s.args.isEmpty ∨ ¬e.args.isEmpty
      · simp only [hargs, if_true]
        rw [validate_args_acc e s _ (acc ++ _), validate_args_acc e s _ ([] ++ _)]
        simp [List.append_assoc]
      · have h' : ¬(¬s.args = [] ∨ ¬e.args = []) := by
          simpa [List.isEmpty_iff] using hargs
        simp [h']

theorem validate_links_eq (ces : List CodeEntity) (dss : List DocSection) :
    validate_links ces dss =
      ((ces.filter fun e => e.doc_id.isNone).map unlinkedFinding)
      ++ ((ces.filter fun e => e.doc_id.isSome).flatMap (linkedStep dss []))
      ++ ((dss.filter fun s => !(ces.any fun e => e.doc_id == some s.id)).map
          orphanFinding) := by
  unfold validate_links
  dsimp only
  have h3 : ∀ (acc : List ValidationResult) (s : DocSection),
      (if ces.any (fun e => e.doc_id == some s.id) then acc else acc ++ [orphanFinding s]) =
      acc ++ (if ces.any (fun e => e.doc_id == some s.id) then [] else [orphanFinding s]) := by
    intro acc s
    by_cases h : ces.any (fun e => e.doc_id == some s.id) <;> simp [h]
  rw [foldl_push_eq _ _ h3,
    foldl_push_eq (linkedStep dss) (linkedStep dss []) (linkedStep_acc dss),
    foldl_push_eq (fun (acc : List ValidationResult) (e : CodeEntity) =>
      acc ++ [unlinkedFinding e]) (fun e => [unlinkedFinding e]) (fun _ _ => rfl),
    flatMap_singleton_eq_map, flatMap_ite_nil]
  simp [List.append_assoc]

/-! ## Claim theorems -/

/-- C1: `validate_links` emits, in order, one Info per unlinked entity in input
order, then per linked entity in input order either a verified-link Info
followed (when either argument list is non-empty) by that pair's
reconciliation findings or a missing-doc-id Error, and finally one Warning per
unreferenced section; in particular one matched no-argument link yields
exactly one Info, one unmatched link exactly one Error, and one unreferenced
section exactly one Warning. -/
theorem C1_validate_links_order :
    (∀ (ces : List CodeEntity) (dss : List DocSection),
      validate_links ces dss =
        ((ces.filter fun e => e.doc_id.isNone).map unlinkedFinding)
        ++ ((ces.filter fun e => e.doc_id.isSome).flatMap (linkedStep dss []))
        ++ ((dss.filter fun s => !(ces.any fun e => e.doc_id == some s.id)).map
            orphanFinding))
    ∧ (∀ (dss : List DocSection) (e : CodeEntity) (did : String), e.doc_id = some did →
      linkedStep dss [] e =
        match dss.find? (fun s => s.id == did) with
        | some s =>
          verifiedFinding e s (e.file_path ++ ":" ++ toString e.line) did ::
            (if ¬s.args.isEmpty ∨ ¬e.args.isEmpty then
              validate_args e s (e.file_path ++ ":" ++ toString e.line) [] else [])
        | none => [notFoundFinding e (e.file_path ++ ":" ++ toString e.line) did])
    ∧ validate_links [entLogin] [secLogin] =
        [verifiedFinding entLogin secLogin "test.ts:1" "auth-login"]
    ∧ (validate_links [entLogin] []).map (·.severity) = [.Error]
    ∧ (validate_links [] [secLogin]).map (·.severity) = [.Warning] := by
  refine ⟨validate_links_eq, ?_, by decide, by decide, by decide⟩
  intro dss e did h
  unfold linkedStep
  rw [h]
  cases hf : dss.find? (fun s => s.id == did) with
  | none => simp [hf]
  | some s =>
    simp only [hf]
    by_cases hargs : ¬s.args.isEmpty ∨ ¬e.args.isEmpty
    · simp only [hargs, if_true]
      rw [validate_args_acc]
      simp
    · have h' : ¬(¬s.args = [] ∨ ¬e.args = []) := by
        simpa [List.isEmpty_iff] using hargs
      simp [h']

/-- Witness for C1: the per-linked-entity characterization applied to the
scenario A entity and section. -/
theorem C1_validate_links_order_witness :
    linkedStep [secLogin] [] entLogin =
      [verifiedFinding entLogin secLogin "test.ts:1" "auth-login"] := by
  rw [C1_validate_links_order.2.1 [secLogin] entLogin "auth-login" (by decide)]
  decide

/-- C2: reconciliation emits one ghost-argument Error for each documented
argument absent from the code signature, one type-mismatch Warning naming both
raw type strings exactly when both sides are typed and the normalized types
differ, and one missing-in-docs Warning for each undocumented code argument;
the normalization maps the string, number, boolean and uuid aliases to their
canonical names; in particular `&str` against `String` yields no mismatch and
`string` against `Integer` yields exactly one mismatch Warning. -/
theorem C2_validate_args_reconciliation :
    (∀ (e : CodeEntity) (s : DocSection) (loc : String),
      validate_args e s loc [] =
        s.args.flatMap (docArgContrib e loc (e.doc_id.getD "?"))
        ++ (e.args.filter fun c => !(s.args.any fun a => a.name == c.name)).map
            (fun c => missingFinding e c.name loc (e.doc_id.getD "?")))
    ∧ (∀ (e : CodeEntity) (loc did : String) (d : Arg),
        docArgContrib e loc did d =
          match e.args.find? (fun a => a.name == d.name) with
          | none => [ghostFinding e d.name loc did]
          | some ca =>
            match ca.type_name, d.type_name with
            | some ct, some dt =>
              if normalize_type ct ≠ normalize_type dt then
                [mismatchFinding e ca.name ct dt loc did]
              else []
            | _, _ => [])
    ∧ ((["string", "str", "&str", "text", "&string", "uuid"].all
        fun t => normalize_type t == "string") = true)
    ∧ ((["number", "integer", "int", "i8", "i16", "i32", "i64", "i128", "isize",
        "u8", "u16", "u32", "u64", "u128", "usize", "f32", "f64", "float",
        "double"].all fun t => normalize_type t == "number") = true)
    ∧ ((["boolean", "bool"].all fun t => normalize_type t == "boolean") = true)
    ∧ validate_args entGreet secGreet "test.ts:1" [] = []
    ∧ validate_args entTenant secTenant "test.ts:1" [] =
        [mismatchFinding entTenant "tenant_id" "string" "Integer" "test.ts:1"
          "auth-login"] := by
  refine ⟨?_, ?_, by decide, by decide, by decide, by decide, by decide⟩
  · intro e s loc
    rw [validate_args_eq]
    simp
  · intro e loc did d
    unfold docArgContrib check_type_mismatch
    cases hf : e.args.find? (fun a => a.name == d.name) with
    | none => simp
    | some ca =>
      cases hc : ca.type_name with
      | none => simp [hc]
      | some ct =>
        cases hd : d.type_name with
        | none => simp [hc, hd]
        | some dt =>
          by_cases hne : normalize_type ct ≠ normalize_type dt <;> simp [hc, hd, hne]

theorem filter_baseline_eq (rs : List ValidationResult) (b : Baseline) :
    filter_baseline rs b =
      (rs.filter fun r => r.severity == Severity.Info ||
          !(b.entries.contains (resultEntry r)),
       (rs.filter fun r => r.severity != Severity.Info &&
          b.entries.contains (resultEntry r)).length) := by
  unfold filter_baseline
  suffices h : ∀ (l : List ValidationResult) (acc : List ValidationResult) (n : Nat),
      l.foldl (fun acc r => if r.severity = Severity.Info then (acc.1 ++ [r], acc.2)
        else if b.entries.contains (resultEntry r) then (acc.1, acc.2 + 1)
        else (acc.1 ++ [r], acc.2)) (acc, n) =
      (acc ++ l.filter (fun r => r.severity == Severity.Info ||
          !(b.entries.contains (resultEntry r))),
       n + (l.filter fun r => r.severity != Severity.Info &&
          b.entries.contains (resultEntry r)).length) by
    simpa using h rs [] 0
  intro l
  induction l with
  | nil => intro acc n; simp
  | cons r rest ih =>
    intro acc n
    by_cases h1 : r.severity = Severity.Info
    · simp only [List.foldl_cons, if_pos h1]
      rw [ih]
      simp [List.filter_cons, h1, List.append_assoc]
    · by_cases h2 : b.entries.contains (resultEntry r)
      · simp only [List.foldl_cons, if_neg h1, if_pos h2]
        rw [ih]
        simp only [List.filter_cons, h2]
        simp [h1, Nat.add_assoc, Nat.add_comm 1]
      · simp only [List.foldl_cons, if_neg h1, if_neg h2]
        rw [ih]
        simp only [List.filter_cons]
        simp [h1, List.append_assoc,
          (by simpa using h2 : ¬resultEntry r ∈ b.entries)]

/-- C3: baseline creation stores one entry per non-Info finding; filtering
passes every Info finding through, suppresses and counts every non-Info
finding whose entry is in the baseline, and passes the rest through in input
order; a baseline built from two non-Info findings suppresses exactly those
two when re-filtering, leaving the third. -/
theorem C3_baseline_creation_and_filtering :
    (∀ (rs : List ValidationResult) (t : String),
      (Baseline.from_results rs t).entries =
        (rs.filter fun r => r.severity != Severity.Info).map resultEntry)
    ∧ (∀ (rs : List ValidationResult) (b : Baseline),
      filter_baseline rs b =
        (rs.filter fun r => r.severity == Severity.Info ||
            !(b.entries.contains (resultEntry r)),
         (rs.filter fun r => r.severity != Severity.Info &&
            b.entries.contains (resultEntry r)).length))
    ∧ (∀ (A B C : ValidationResult) (t : String),
        A.severity ≠ Severity.Info → B.severity ≠ Severity.Info →
        C.severity = Severity.Info ∨
          (resultEntry C ≠ resultEntry A ∧ resultEntry C ≠ resultEntry B) →
        filter_baseline [A, B, C] (Baseline.from_results [A, B] t) = ([C], 2)) := by
  refine ⟨fun rs t => rfl, filter_baseline_eq, ?_⟩
  intro A B C t hA hB hC
  rw [filter_baseline_eq]
  have eAB : (Baseline.from_results [A, B] t).entries =
      [resultEntry A, resultEntry B] := by
    simp [Baseline.from_results, List.filter_cons, hA, hB]
  rw [eAB]
  rcases hC with hC | ⟨hCA, hCB⟩
  · simp [List.filter_cons, hA, hB, hC]
  · by_cases hCsev : C.severity = Severity.Info
    · simp [List.filter_cons, hA, hB, hCsev]
    · simp [List.filter_cons, hA, hB, hCsev, hCA, hCB]

/-- Witness for C3: scenario F at three concrete findings. -/
theorem C3_baseline_creation_and_filtering_witness :
    filter_baseline [findA, findB, findC] (Baseline.from_results [findA, findB] "unix:0") =
      ([findC], 2) :=
  C3_baseline_creation_and_filtering.2.2 findA findB findC "unix:0"
    (by decide) (by decide) (by decide)

/-- C7: loading the baseline yields no baseline when the file is absent, and
fails when the file cannot be read or parsed, or parses to a version other
than "1"; a version-"1" baseline loads as-is. -/
theorem C7_baseline_load_version_gate :
    baselineLoad .absent = .ok none
    ∧ (∃ msg, baselineLoad .unreadable = .error msg)
    ∧ (∃ msg, baselineLoad .unparsable = .error msg)
    ∧ (∀ b : Baseline, b.version ≠ "1" → ∃ msg, baselineLoad (.parsed b) = .error msg)
    ∧ (∀ b : Baseline, b.version = "1" → baselineLoad (.parsed b) = .ok (some b)) := by
  refine ⟨rfl, ⟨_, rfl⟩, ⟨_, rfl⟩, ?_, ?_⟩
  · intro b h
    refine ⟨"Versión de baseline no soportada: '" ++ b.version ++ "' (esperada: '1')", ?_⟩
    simp [baselineLoad, h]
  · intro b h
    simp [baselineLoad, h]

/-- Witness for C7: a version-"2" baseline is rejected and a version-"1"
baseline loads. -/
theorem C7_baseline_load_version_gate_witness :
    (∃ msg, baselineLoad (.parsed baseV2) = .error msg)
    ∧ baselineLoad (.parsed baseV1) = .ok (some baseV1) :=
  ⟨C7_baseline_load_version_gate.2.2.2.1 baseV2 (by decide),
   C7_baseline_load_version_gate.2.2.2.2 baseV1 rfl⟩

/-! ## Character and trim lemmas -/

theorem char_toNat_ofNat {n : Nat} (h : n < 55296) : (Char.ofNat n).toNat = n := by
  unfold Char.ofNat
  rw [dif_pos (Or.inl h : n.isValidChar)]
  simp [Char.ofNatAux, Char.toNat, UInt32.toNat, UInt32.ofNat']

theorem toLower_toNat (c : Char) :
    (Char.toLower c).toNat =
      if 65 ≤ c.toNat ∧ c.toNat ≤ 90 then c.toNat + 32 else c.toNat := by
  unfold Char.toLower
  by_cases h : 65 ≤ c.toNat ∧ c.toNat ≤ 90
  · rw [if_pos h, if_pos h]
    exact char_toNat_ofNat (by omega)
  · rw [if_neg h, if_neg h]

theorem toLower_eq_self {c : Char} (h : ¬(65 ≤ c.toNat ∧ c.toNat ≤ 90)) :
    Char.toLower c = c := by
  unfold Char.toLower
  rw [if_neg h]

theorem toLower_idem (c : Char) : Char.toLower (Char.toLower c) = Char.toLower c := by
  by_cases h : 65 ≤ c.toNat ∧ c.toNat ≤ 90
  · have h1 : (Char.toLower c).toNat = c.toNat + 32 := by rw [toLower_toNat, if_pos h]
    exact toLower_eq_self (by rw [h1]; omega)
  · rw [toLower_eq_self h]
    exact toLower_eq_self h

theorem isRustWhitespace_toLower (c : Char) :
    isRustWhitespace (Char.toLower c) = isRustWhitespace c := by
  by_cases h : 65 ≤ c.toNat ∧ c.toNat ≤ 90
  · simp only [isRustWhitespace]
    rw [toLower_toNat c, if_pos h]
    rw [decide_eq_false (by omega), decide_eq_false (by omega)]
  · rw [toLower_eq_self h]

theorem trimChars_map_toLower (l : List Char) :
    trimChars (l.map Char.toLower) = (trimChars l).map Char.toLower := by
  have hpf : (isRustWhitespace ∘ Char.toLower) = isRustWhitespace :=
    funext isRustWhitespace_toLower
  unfold trimChars List.rdropWhile
  rw [List.dropWhile_map, hpf, ← List.map_reverse, List.dropWhile_map, hpf,
    ← List.map_reverse]

theorem trimChars_idem (l : List Char) : trimChars (trimChars l) = trimChars l := by
  unfold trimChars
  have hleft : List.dropWhile isRustWhitespace
      (List.rdropWhile isRustWhitespace (List.dropWhile isRustWhitespace l)) =
      List.rdropWhile isRustWhitespace (List.dropWhile isRustWhitespace l) := by
    cases hB : List.rdropWhile isRustWhitespace (List.dropWhile isRustWhitespace l) with
    | nil => simp
    | cons b B =>
      rcases List.rdropWhile_prefix isRustWhitespace
        (List.dropWhile isRustWhitespace l) with ⟨t, ht⟩
      rw [hB] at ht
      have hpb : ¬isRustWhitespace b = true := by
        have hd := List.dropWhile_idempotent isRustWhitespace l
        rw [← ht, List.cons_append, List.dropWhile_cons] at hd
        intro hq
        rw [if_pos hq] at hd
        have hlen := congrArg List.length hd
        have hle : (List.dropWhile isRustWhitespace (B ++ t)).length ≤ (B ++ t).length :=
          (List.dropWhile_sublist isRustWhitespace).length_le
        simp only [List.length_cons] at hlen
        omega
      rw [List.dropWhile_cons, if_neg hpb]
  rw [hleft, List.rdropWhile_idempotent]

theorem cleaned_idem (s : String) :
    rustToLowercase (rustTrim (rustToLowercase (rustTrim s))) =
      rustToLowercase (rustTrim s) := by
  unfold rustToLowercase rustTrim
  show (⟨(trimChars ((trimChars s.data).map Char.toLower)).map Char.toLower⟩ : String) =
    ⟨(trimChars s.data).map Char.toLower⟩
  rw [trimChars_map_toLower, trimChars_idem, List.map_map]
  have : Char.toLower ∘ Char.toLower = Char.toLower := funext toLower_idem
  rw [this]

/-- C10: `normalize_type` is idempotent, and every output is one of the three
canonical names or the trimmed lowercase form of the input. -/
theorem C10_normalize_type_idempotent :
    ∀ t : String, normalize_type (normalize_type t) = normalize_type t ∧
      (normalize_type t = "string" ∨ normalize_type t = "number" ∨
       normalize_type t = "boolean" ∨
       normalize_type t = rustToLowercase (rustTrim t)) := by
  intro t
  by_cases h1 : rustToLowercase (rustTrim t) ∈ ["string", "str", "&str", "text", "&string"]
  · have hval : normalize_type t = "string" := by
      simp only [normalize_type]
      rw [if_pos h1]
    rw [hval]
    exact ⟨by decide, Or.inl rfl⟩
  · by_cases h2 : rustToLowercase (rustTrim t) ∈ ["number", "integer", "int", "i8",
      "i16", "i32", "i64", "i128", "isize", "u8", "u16", "u32", "u64", "u128",
      "usize", "f32", "f64", "float", "double"]
    · have hval : normalize_type t = "number" := by
        simp only [normalize_type]
        rw [if_neg h1, if_pos h2]
      rw [hval]
      exact ⟨by decide, Or.inr (Or.inl rfl)⟩
    · by_cases h3 : rustToLowercase (rustTrim t) ∈ ["boolean", "bool"]
      · have hval : normalize_type t = "boolean" := by
          simp only [normalize_type]
          rw [if_neg h1, if_neg h2, if_pos h3]
        rw [hval]
        exact ⟨by decide, Or.inr (Or.inr (Or.inl rfl))⟩
      · by_cases h4 : rustToLowercase (rustTrim t) = "uuid"
        · have hval : normalize_type t = "string" := by
            simp only [normalize_type]
            rw [if_neg h1, if_neg h2, if_neg h3, if_pos h4]
          rw [hval]
          exact ⟨by decide, Or.inl rfl⟩
        · have hval : normalize_type t = rustToLowercase (rustTrim t) := by
            simp only [normalize_type]
            rw [if_neg h1, if_neg h2, if_neg h3, if_neg h4]
          rw [hval]
          refine ⟨?_, Or.inr (Or.inr (Or.inr rfl))⟩
          simp only [normalize_type]
          rw [cleaned_idem t, if_neg h1, if_neg h2, if_neg h3, if_neg h4]

/-! ## Fingerprint lemmas -/

theorem intercalate_go_eq (sep : String) :
    ∀ (as : List String) (acc : String),
      String.intercalate.go acc sep as = acc ++ sepJoin sep as := by
  intro as
  induction as with
  | nil => intro acc; simp [String.intercalate.go, sepJoin]
  | cons a as ih =>
    intro acc
    rw [String.intercalate.go, ih, sepJoin]
    simp [String.append_assoc]

theorem intercalate_cons (sep w : String) (ws : List String) :
    String.intercalate sep (w :: ws) = w ++ sepJoin sep ws :=
  intercalate_go_eq sep ws w

theorem rustSplitWhitespace_eq (s : String) :
    rustSplitWhitespace s = (wordsOf s.data).map fun l => ⟨l⟩ := rfl

theorem wordsOf_word_sep (w : List Char) (hw : w ≠ [])
    (hnw : ∀ c ∈ w, ¬isRustWhitespace c) (rest : List Char) :
    wordsOf (w ++ ' ' :: rest) = w :: wordsOf rest := by
  unfold wordsOf
  rw [List.splitOnP_first isRustWhitespace w hnw ' ' (by decide) rest]
  rw [List.filter_cons]
  simp [hw]

theorem wordsOf_word (w : List Char) (hnw : ∀ c ∈ w, ¬isRustWhitespace c) :
    wordsOf w = if w = [] then [] else [w] := by
  unfold wordsOf
  rw [List.splitOnP_eq_single isRustWhitespace w hnw]
  by_cases h : w = [] <;> simp [List.filter_cons, h]

theorem words_intercalate :
    ∀ (ws : List String), (∀ w ∈ ws, goodWord w) →
      rustSplitWhitespace (String.intercalate " " ws) = ws := by
  intro ws
  induction ws with
  | nil => intro _; rfl
  | cons w ws ih =>
    intro h
    have hw := h w (List.mem_cons_self w ws)
    cases ws with
    | nil =>
      rw [intercalate_cons, rustSplitWhitespace_eq]
      show ((wordsOf (w ++ "").data).map fun l => ⟨l⟩) = [w]
      rw [String.data_append]
      show ((wordsOf (w.data ++ [])).map fun l => ⟨l⟩) = [w]
      rw [List.append_nil, wordsOf_word w.data hw.2, if_neg hw.1]
      rfl
    | cons w' ws' =>
      have hdata : (String.intercalate " " (w :: w' :: ws')).data =
          w.data ++ ' ' :: (String.intercalate " " (w' :: ws')).data := by
        rw [intercalate_cons, intercalate_cons]
        conv_lhs => rw [sepJoin]
        simp [String.data_append]
      rw [rustSplitWhitespace_eq, hdata,
        wordsOf_word_sep w.data hw.1 hw.2, List.map_cons]
      have hrest := ih (fun x hx => h x (List.mem_cons_of_mem w hx))
      rw [rustSplitWhitespace_eq] at hrest
      rw [hrest]

/-- C6: the fingerprint of a message is its first 6 whitespace-separated tokens
joined with single spaces; messages agreeing on those tokens share a
fingerprint, so altering tokens beyond the first 6 never changes it; and
baseline entries compare by exactly the four key fields. -/
theorem C6_fingerprint_first_six_tokens :
    (∀ m : String,
      make_fingerprint m = String.intercalate " " ((rustSplitWhitespace m).take 6))
    ∧ (∀ m₁ m₂ : String,
        (rustSplitWhitespace m₁).take 6 = (rustSplitWhitespace m₂).take 6 →
        make_fingerprint m₁ = make_fingerprint m₂)
    ∧ (∀ (ws t₁ t₂ : List String), ws.length = 6 →
        (∀ w ∈ ws ++ t₁, goodWord w) → (∀ w ∈ ws ++ t₂, goodWord w) →
        make_fingerprint (String.intercalate " " (ws ++ t₁)) =
          make_fingerprint (String.intercalate " " (ws ++ t₂)))
    ∧ (∀ e₁ e₂ : BaselineEntry, e₁ = e₂ ↔
        (e₁.severity = e₂.severity ∧ e₁.function_name = e₂.function_name ∧
         e₁.doc_id = e₂.doc_id ∧
         e₁.message_fingerprint = e₂.message_fingerprint)) := by
  refine ⟨fun m => rfl, ?_, ?_, ?_⟩
  · intro m₁ m₂ h
    unfold make_fingerprint
    rw [h]
  · intro ws t₁ t₂ hlen h₁ h₂
    unfold make_fingerprint
    rw [words_intercalate (ws ++ t₁) h₁, words_intercalate (ws ++ t₂) h₂,
      ← hlen, List.take_left, List.take_left]
  · intro e₁ e₂
    constructor
    · intro h
      rw [h]
      exact ⟨rfl, rfl, rfl, rfl⟩
    · intro ⟨h1, h2, h3, h4⟩
      cases e₁
      cases e₂
      simp only at h1 h2 h3 h4
      rw [h1, h2, h3, h4]

/-- Witness for C6: two messages sharing their first six tokens but differing
in the seventh have equal fingerprints. -/
theorem C6_fingerprint_first_six_tokens_witness :
    make_fingerprint "uno dos tres cuatro cinco seis siete" =
      make_fingerprint "uno dos tres cuatro cinco seis OCHO nueve" :=
  C6_fingerprint_first_six_tokens.2.1
    "uno dos tres cuatro cinco seis siete"
    "uno dos tres cuatro cinco seis OCHO nueve" (by decide)

/-! ## Annotation scan lemmas -/

theorem docsScanSpec_cons (ck : String) (prev : Nat) (sib : SiblingNode)
    (rest : List SiblingNode) :
    docsScanSpec ck prev (sib :: rest) =
      if prev - sib.row > 2 then none
      else if sib.kind ≠ ck then none
      else
        match extract_docs_id_from_comment sib.text with
        | some id => some id
        | none => docsScanSpec ck sib.row rest := rfl

theorem findDocsAux_eq_spec (fs : Nat) (ck : String) :
    ∀ (l : List SiblingNode) (prev : Nat),
      findDocsAux fs ck prev l = docsScanSpec ck prev (l.filter fun s => s.row < fs) := by
  intro l
  induction l with
  | nil => intro prev; rfl
  | cons sib rest ih =>
    intro prev
    rw [findDocsAux]
    by_cases h1 : sib.row ≥ fs
    · have hlt : ¬(sib.row < fs) := by omega
      rw [if_pos h1, ih prev]
      congr 1
      simp [List.filter_cons, hlt]
    · have hlt : sib.row < fs := by omega
      have hfil : List.filter (fun s => decide (s.row < fs)) (sib :: rest) =
          sib :: rest.filter (fun s => decide (s.row < fs)) := by
        simp [List.filter_cons, hlt]
      rw [if_neg h1, hfil, docsScanSpec_cons]
      by_cases h2 : prev - sib.row > 2
      · simp [h2]
      · simp only [if_neg h2]
        by_cases h3 : sib.kind = ck
        · have h3' : ¬(sib.kind ≠ ck) := by simpa using h3
          simp only [if_pos h3, if_neg h3']
          cases hx : extract_docs_id_from_comment sib.text with
          | some id => rfl
          | none => exact ih sib.row
        · simp only [if_neg h3, if_pos h3]

/-- C4: the backward annotation scan equals the spec reading: over the
preceding siblings in reverse source order, stop on a gap above 2 lines
(measured between consecutive visited candidates, starting from the
declaration's row) or on a non-comment sibling, and return the first
annotation match; two concrete scans illustrate the nearest-match and
non-comment-stop behaviors. -/
theorem C4_find_docs_annotation_scan :
    (∀ (fs : Nat) (siblings : List SiblingNode) (ck : String),
      find_docs_annotation fs siblings ck =
        docsScanSpec ck fs ((siblings.reverse).filter fun s => s.row < fs))
    ∧ find_docs_annotation 5 [⟨"comment", 2, "// intro"⟩,
        ⟨"comment", 3, "/// @docs: [my-id]"⟩, ⟨"comment", 4, "/// more"⟩] "comment" =
        some "my-id"
    ∧ find_docs_annotation 10 [⟨"comment", 2, "/// @docs: [far]"⟩,
        ⟨"other_node", 6, "x"⟩, ⟨"comment", 9, "/// near"⟩] "comment" = none := by
  refine ⟨?_, by decide, by decide⟩
  intro fs siblings ck
  unfold find_docs_annotation
  exact findDocsAux_eq_spec fs ck siblings.reverse fs

/-- C9: neither extractor ever returns an empty identifier, and the empty
`@docs:` forms — bare, empty brackets, and the empty HTML `@docs-id:` —
all yield nothing. -/
theorem C9_empty_annotation_rejected :
    (∀ (c id : String), extract_docs_id_from_comment c = some id → id.data ≠ [])
    ∧ extract_docs_id_from_comment "// @docs:" = none
    ∧ extract_docs_id_from_comment "/// @docs: []" = none
    ∧ (∀ (h id : String), extract_docs_id_from_html h = some id → id.data ≠ [])
    ∧ extract_docs_id_from_html "<!-- @docs-id: -->" = none := by
  refine ⟨?_, by decide, by decide, ?_, by decide⟩
  · intro c id h
    simp only [extract_docs_id_from_comment] at h
    repeat' split at h
    all_goals simp_all [List.isEmpty_iff]
  · intro c id h
    simp only [extract_docs_id_from_html] at h
    repeat' split at h
    all_goals simp_all [List.isEmpty_iff]

/-- Witness for C9: the bracketed extraction returns the non-empty id. -/
theorem C9_empty_annotation_rejected_witness :
    ("auth-login" : String).data ≠ [] :=
  C9_empty_annotation_rejected.1 "/// @docs: [auth-login]" "auth-login" (by decide)

/-! ## Markdown extraction lemmas -/

theorem mdStep_ids (fp : String) (st : MdState) (ev : MdEvent × Nat) :
    (mdStep fp st ev).sections.map (·.id) ++ (mdStep fp st ev).current_id.toList =
      st.sections.map (·.id) ++ st.current_id.toList ++ (markerId ev).toList := by
  obtain ⟨e, ln⟩ := ev
  cases e with
  | html t =>
    simp only [mdStep, markerId]
    cases hx : extract_docs_id_from_html (rustTrim t) with
    | none => simp
    | some id =>
      cases hc : st.current_id with
      | none => simp
      | some prev => simp [closedSection]
  | _ =>
    simp only [mdStep, markerId] <;>
      (try (repeat' split)) <;>
      simp

theorem md_fold_ids (fp : String) :
    ∀ (events : List (MdEvent × Nat)) (st : MdState),
      ((events.foldl (mdStep fp) st).sections).map (·.id) ++
        (events.foldl (mdStep fp) st).current_id.toList =
      st.sections.map (·.id) ++ st.current_id.toList ++ events.filterMap markerId := by
  intro events
  induction events with
  | nil => intro st; simp
  | cons ev evs ih =>
    intro st
    simp only [List.foldl_cons, List.filterMap_cons]
    rw [ih (mdStep fp st ev), mdStep_ids]
    cases markerId ev <;> simp [List.append_assoc]

/-- C8: at most one section is open at a time: each marker closes and emits
the open section before opening a new one, so the ids of the emitted sections
are exactly the marker ids in document order, a document with no markers
yields an empty list, the first heading completed after a marker supplies the
title only when none is set, and a section stays open until the next marker
or end of document. -/
theorem C8_markdown_sections_never_nest :
    (∀ (fp : String) (events : List (MdEvent × Nat)),
      (parse_markdown_events fp events).map (·.id) = events.filterMap markerId)
    ∧ (∀ (fp : String) (events : List (MdEvent × Nat)),
        events.filterMap markerId = [] → parse_markdown_events fp events = [])
    ∧ (∀ (fp : String) (st : MdState) (ln : Nat),
        (mdStep fp st (.endHeading, ln)).current_title =
          if st.current_id.isSome ∧ st.current_title.isNone then
            some (rustTrim st.heading_text)
          else st.current_title)
    ∧ (∀ (fp : String) (st : MdState) (t : String) (ln : Nat) (id : String),
        extract_docs_id_from_html (rustTrim t) = some id →
        (mdStep fp st (.html t, ln)).current_id = some id ∧
        (mdStep fp st (.html t, ln)).current_line = ln ∧
        (mdStep fp st (.html t, ln)).sections =
          st.sections ++
            (match st.current_id with
             | some prev =>
               [closedSection fp prev st.current_title st.current_args st.current_line]
             | none => [])) := by
  have hids : ∀ (fp : String) (events : List (MdEvent × Nat)),
      (parse_markdown_events fp events).map (·.id) = events.filterMap markerId := by
    intro fp events
    have h := md_fold_ids fp events initMdState
    unfold parse_markdown_events
    dsimp only
    cases hc : (events.foldl (mdStep fp) initMdState).current_id with
    | none =>
      rw [hc] at h
      simpa [initMdState] using h
    | some id =>
      rw [hc] at h
      simp only [List.map_append, List.map_cons, List.map_nil]
      simpa [initMdState, closedSection] using h
  refine ⟨hids, ?_, ?_, ?_⟩
  · intro fp events hnone
    have h := hids fp events
    rw [hnone, List.map_eq_nil_iff] at h
    exact h
  · intro fp st ln
    simp only [mdStep]
    split <;> simp
  · intro fp st t ln id hx
    simp only [mdStep, hx]
    cases hc : st.current_id with
    | none => simp
    | some prev => simp

/-- Witness for C8: a marker event on the initial state opens section "a" at
its own line with nothing emitted. -/
theorem C8_markdown_sections_never_nest_witness :
    (mdStep "d.md" initMdState (.html "<!-- @docs-id: a -->", 3)).current_id = some "a" ∧
    (mdStep "d.md" initMdState (.html "<!-- @docs-id: a -->", 3)).current_line = 3 ∧
    (mdStep "d.md" initMdState (.html "<!-- @docs-id: a -->", 3)).sections =
      initMdState.sections ++
        (match initMdState.current_id with
         | some prev =>
           [closedSection "d.md" prev initMdState.current_title
             initMdState.current_args initMdState.current_line]
         | none => []) :=
  C8_markdown_sections_never_nest.2.2.2 "d.md" initMdState "<!-- @docs-id: a -->" 3 "a"
    (by decide)

/-! ## Heuristic matcher lemmas -/

theorem bestMatchFor_eq_foldl (us : List (Nat × DocSection)) (ei : Nat) (e : CodeEntity) :
    bestMatchFor us ei e = us.foldl (heurStep ei e) none := rfl

theorem heurStep_fold_spec (ei : Nat) (e : CodeEntity) :
    ∀ (us : List (Nat × DocSection)) (b : Option CandidateLink),
      (us.foldl (heurStep ei e) b = b ∧
        ∀ q ∈ us, MIN_CONFIDENCE ≤ heurConf e q →
          ∃ b', b = some b' ∧ heurConf e q ≤ b'.confidence)
      ∨ (∃ us₁ p us₂, us = us₁ ++ p :: us₂ ∧
          us.foldl (heurStep ei e) b =
            some (candidateFor ei e p.1 p.2 (heurConf e p)) ∧
          MIN_CONFIDENCE ≤ heurConf e p ∧
          (∀ b', b = some b' → b'.confidence < heurConf e p) ∧
          (∀ q ∈ us₁, MIN_CONFIDENCE ≤ heurConf e q → heurConf e q < heurConf e p) ∧
          (∀ q ∈ us₂, MIN_CONFIDENCE ≤ heurConf e q → heurConf e q ≤ heurConf e p)) := by
  intro us
  induction us with
  | nil =>
    intro b
    exact Or.inl ⟨rfl, fun q hq => (List.not_mem_nil q hq).elim⟩
  | cons p rest ih =>
    intro b
    have hcandconf : (candidateFor ei e p.1 p.2 (heurConf e p)).confidence =
        heurConf e p := rfl
    by_cases hq : MIN_CONFIDENCE ≤ heurConf e p
    · cases b with
      | none =>
        have hstep : heurStep ei e none p =
            some (candidateFor ei e p.1 p.2 (heurConf e p)) := by
          simp only [heurStep, if_pos hq]
        rcases ih (heurStep ei e none p) with ⟨heq, hall⟩ |
          ⟨us₁, p', us₂, hsplit, heq, hqual, hinit, hbefore, hafter⟩
        · refine Or.inr ⟨[], p, rest, rfl, ?_, hq, ?_, ?_, ?_⟩
          · rw [List.foldl_cons, heq, hstep]
          · intro b' hb'
            exact Option.noConfusion hb'
          · intro q hqm
            exact (List.not_mem_nil q hqm).elim
          · intro q hqm hqc
            rcases hall q hqm hqc with ⟨b', hb', hle⟩
            rw [hstep] at hb'
            cases hb'
            simpa [hcandconf] using hle
        · have hplt : heurConf e p < heurConf e p' := by
            have := hinit (candidateFor ei e p.1 p.2 (heurConf e p)) (by rw [hstep])
            simpa [hcandconf] using this
          refine Or.inr ⟨p :: us₁, p', us₂, by rw [hsplit, List.cons_append], ?_, hqual, ?_, ?_, hafter⟩
          · rw [List.foldl_cons, heq]
          · intro b' hb'
            exact Option.noConfusion hb'
          · intro q hqm hqc
            rcases List.mem_cons.mp hqm with rfl | hqm'
            · exact hplt
            · exact hbefore q hqm' hqc
      | some b₀ =>
        by_cases hcmp : b₀.confidence < heurConf e p
        · have hstep : heurStep ei e (some b₀) p =
              some (candidateFor ei e p.1 p.2 (heurConf e p)) := by
            simp only [heurStep, if_pos hq, if_pos hcmp]
          rcases ih (heurStep ei e (some b₀) p) with ⟨heq, hall⟩ |
            ⟨us₁, p', us₂, hsplit, heq, hqual, hinit, hbefore, hafter⟩
          · refine Or.inr ⟨[], p, rest, rfl, ?_, hq, ?_, ?_, ?_⟩
            · rw [List.foldl_cons, heq, hstep]
            · intro b' hb'
              cases hb'
              exact hcmp
            · intro q hqm
              exact (List.not_mem_nil q hqm).elim
            · intro q hqm hqc
              rcases hall q hqm hqc with ⟨b', hb', hle⟩
              rw [hstep] at hb'
              cases hb'
              simpa [hcandconf] using hle
          · have hplt : heurConf e p < heurConf e p' := by
              have := hinit (candidateFor ei e p.1 p.2 (heurConf e p)) (by rw [hstep])
              simpa [hcandconf] using this
            refine Or.inr ⟨p :: us₁, p', us₂, by rw [hsplit, List.cons_append], ?_, hqual, ?_, ?_, hafter⟩
            · rw [List.foldl_cons, heq]
            · intro b' hb'
              cases hb'
              exact lt_trans hcmp hplt
            · intro q hqm hqc
              rcases List.mem_cons.mp hqm with rfl | hqm'
              · exact hplt
              · exact hbefore q hqm' hqc
        · have hstep : heurStep ei e (some b₀) p = some b₀ := by
            simp only [heurStep, if_pos hq, if_neg hcmp]
          rcases ih (heurStep ei e (some b₀) p) with ⟨heq, hall⟩ |
            ⟨us₁, p', us₂, hsplit, heq, hqual, hinit, hbefore, hafter⟩
          · refine Or.inl ⟨?_, ?_⟩
            · rw [List.foldl_cons, heq, hstep]
            · intro q hqm hqc
              rcases List.mem_cons.mp hqm with rfl | hqm'
              · exact ⟨b₀, rfl, le_of_not_lt hcmp⟩
              · rcases hall q hqm' hqc with ⟨b', hb', hle⟩
                rw [hstep] at hb'
                cases hb'
                exact ⟨b₀, rfl, hle⟩
          · refine Or.inr ⟨p :: us₁, p', us₂, by rw [hsplit, List.cons_append], ?_, hqual, ?_, ?_, hafter⟩
            · rw [List.foldl_cons, heq]
            · intro b' hb'
              cases hb'
              exact hinit b₀ (by rw [hstep])
            · intro q hqm hqc
              rcases List.mem_cons.mp hqm with rfl | hqm'
              · exact lt_of_le_of_lt (le_of_not_lt hcmp) (hinit b₀ (by rw [hstep]))
              · exact hbefore q hqm' hqc
    · have hstep : heurStep ei e b p = b := by
        simp only [heurStep, if_neg hq]
      rcases ih (heurStep ei e b p) with ⟨heq, hall⟩ |
        ⟨us₁, p', us₂, hsplit, heq, hqual, hinit, hbefore, hafter⟩
      · refine Or.inl ⟨?_, ?_⟩
        · rw [List.foldl_cons, heq, hstep]
        · intro q hqm hqc
          rcases List.mem_cons.mp hqm with rfl | hqm'
          · exact absurd hqc hq
          · rcases hall q hqm' hqc with ⟨b', hb', hle⟩
            rw [hstep] at hb'
            exact ⟨b', hb', hle⟩
      · refine Or.inr ⟨p :: us₁, p', us₂, by rw [hsplit, List.cons_append], ?_, hqual, ?_, ?_, hafter⟩
        · rw [List.foldl_cons, heq]
        · intro b' hb'
          exact hinit b' (by rw [hstep, hb'])
        · intro q hqm hqc
          rcases List.mem_cons.mp hqm with rfl | hqm'
          · exact absurd hqc hq
          · exact hbefore q hqm' hqc

theorem bestMatchFor_some_spec {us : List (Nat × DocSection)} {ei : Nat}
    {e : CodeEntity} {c : CandidateLink} (h : bestMatchFor us ei e = some c) :
    ∃ us₁ p us₂, us = us₁ ++ p :: us₂ ∧
      c = candidateFor ei e p.1 p.2 (compute_confidence e.name p.2) ∧
      MIN_CONFIDENCE ≤ compute_confidence e.name p.2 ∧
      (∀ q ∈ us₁, MIN_CONFIDENCE ≤ compute_confidence e.name q.2 →
        compute_confidence e.name q.2 < compute_confidence e.name p.2) ∧
      (∀ q ∈ us₂, MIN_CONFIDENCE ≤ compute_confidence e.name q.2 →
        compute_confidence e.name q.2 ≤ compute_confidence e.name p.2) := by
  rw [bestMatchFor_eq_foldl] at h
  rcases heurStep_fold_spec ei e us none with ⟨heq, _⟩ |
    ⟨us₁, p, us₂, hsplit, heq, hqual, _, hbefore, hafter⟩
  · rw [heq] at h
    exact Option.noConfusion h
  · rw [heq] at h
    cases h
    exact ⟨us₁, p, us₂, hsplit, rfl, hqual, hbefore, hafter⟩

theorem bestMatchFor_none_spec {us : List (Nat × DocSection)} {ei : Nat}
    {e : CodeEntity} (h : bestMatchFor us ei e = none) :
    ∀ q ∈ us, compute_confidence e.name q.2 < MIN_CONFIDENCE := by
  rw [bestMatchFor_eq_foldl] at h
  rcases heurStep_fold_spec ei e us none with ⟨_, hall⟩ |
    ⟨us₁, p, us₂, _, heq, _, _, _, _⟩
  · intro q hq
    by_contra hge
    rcases hall q hq (le_of_not_lt hge) with ⟨b', hb', _⟩
    exact Option.noConfusion hb'
  · rw [heq] at h
    exact Option.noConfusion h

theorem bestMatchFor_entity_index {us : List (Nat × DocSection)} {ei : Nat}
    {e : CodeEntity} {c : CandidateLink} (h : bestMatchFor us ei e = some c) :
    c.entity_index = ei := by
  rcases bestMatchFor_some_spec h with ⟨us₁, p, us₂, _, hc, _⟩
  rw [hc]
  rfl

theorem flatMap_toList_eq_filterMap {α β : Type} (f : α → Option β) :
    ∀ l : List α, (l.flatMap fun x => (f x).toList) = l.filterMap f := by
  intro l
  induction l with
  | nil => rfl
  | cons a rest ih =>
    rw [List.flatMap_cons, List.filterMap_cons]
    cases hf : f a with
    | none => simpa using ih
    | some c => simpa using ih

theorem filterMap_map_sublist {α β γ : Type} (f : α → Option β) (g : β → γ) (h : α → γ)
    (hfg : ∀ a b, f a = some b → g b = h a) :
    ∀ l : List α, ((l.filterMap f).map g).Sublist (l.map h) := by
  intro l
  induction l with
  | nil => simp
  | cons a rest ih =>
    rw [List.filterMap_cons, List.map_cons]
    cases hf : f a with
    | none => exact ih.cons (h a)
    | some b =>
      rw [List.map_cons, hfg a b hf]
      exact ih.cons₂ (h a)

theorem find_candidates_eq (ces : List CodeEntity) (dss : List DocSection) :
    find_candidates ces dss =
      ((ces.enum.filter fun p => p.2.doc_id.isNone).filterMap fun p =>
        bestMatchFor (dss.enum.filter fun q =>
          !(ces.any fun e => e.doc_id == some q.2.id)) p.1 p.2).insertionSort
        (fun a b => b.confidence ≤ a.confidence) := by
  unfold find_candidates
  dsimp only
  rw [foldl_push_eq
    (fun acc (p : Nat × CodeEntity) => acc ++ (bestMatchFor (dss.enum.filter fun p =>
      !(ces.any fun e => e.doc_id == some p.2.id)) p.1 p.2).toList)
    (fun p => (bestMatchFor (dss.enum.filter fun p =>
      !(ces.any fun e => e.doc_id == some p.2.id)) p.1 p.2).toList)
    (fun _ _ => rfl),
    flatMap_toList_eq_filterMap, List.nil_append]

/-- C5: `find_candidates` returns a permutation, sorted by non-increasing
confidence, of one best candidate per unlinked entity against the unlinked
sections, the candidate indices are pairwise distinct, and the per-entity best
is the first section attaining the maximal confidence among those at or above
the 0.80 threshold; entities whose every section scores below the threshold
contribute nothing. -/
theorem C5_find_candidates_matching :
    (∀ (ces : List CodeEntity) (dss : List DocSection),
      (find_candidates ces dss).Perm
        ((ces.enum.filter fun p => p.2.doc_id.isNone).filterMap fun p =>
          bestMatchFor (dss.enum.filter fun q =>
            !(ces.any fun e => e.doc_id == some q.2.id)) p.1 p.2))
    ∧ (∀ (ces : List CodeEntity) (dss : List DocSection),
        (find_candidates ces dss).Pairwise fun a b => b.confidence ≤ a.confidence)
    ∧ (∀ (ces : List CodeEntity) (dss : List DocSection),
        ((find_candidates ces dss).map (·.entity_index)).Nodup)
    ∧ (∀ (us : List (Nat × DocSection)) (ei : Nat) (e : CodeEntity)
        (c : CandidateLink), bestMatchFor us ei e = some c →
        ∃ us₁ p us₂, us = us₁ ++ p :: us₂ ∧
          c = candidateFor ei e p.1 p.2 (compute_confidence e.name p.2) ∧
          MIN_CONFIDENCE ≤ compute_confidence e.name p.2 ∧
          (∀ q ∈ us₁, MIN_CONFIDENCE ≤ compute_confidence e.name q.2 →
            compute_confidence e.name q.2 < compute_confidence e.name p.2) ∧
          (∀ q ∈ us₂, MIN_CONFIDENCE ≤ compute_confidence e.name q.2 →
            compute_confidence e.name q.2 ≤ compute_confidence e.name p.2))
    ∧ (∀ (us : List (Nat × DocSection)) (ei : Nat) (e : CodeEntity),
        bestMatchFor us ei e = none →
        ∀ q ∈ us, compute_confidence e.name q.2 < MIN_CONFIDENCE) := by
  refine ⟨?_, ?_, ?_, fun us ei e c h => bestMatchFor_some_spec h,
    fun us ei e h => bestMatchFor_none_spec h⟩
  · intro ces dss
    rw [find_candidates_eq]
    exact List.perm_insertionSort _ _
  · intro ces dss
    rw [find_candidates_eq]
    haveI htot : IsTotal CandidateLink (fun a b => b.confidence ≤ a.confidence) :=
      ⟨fun a b => (le_total b.confidence a.confidence).imp id id⟩
    haveI htrans : IsTrans CandidateLink (fun a b => b.confidence ≤ a.confidence) :=
      ⟨fun _ _ _ hab hbc => le_trans hbc hab⟩
    exact List.sorted_insertionSort _ _
  · intro ces dss
    have hperm : ((find_candidates ces dss).map (·.entity_index)).Perm
        ((((ces.enum.filter fun p => p.2.doc_id.isNone).filterMap fun p =>
          bestMatchFor (dss.enum.filter fun q =>
            !(ces.any fun e => e.doc_id == some q.2.id)) p.1 p.2)).map
          (·.entity_index)) := by
      rw [find_candidates_eq]
      exact (List.perm_insertionSort _ _).map _
    rw [hperm.nodup_iff]
    have hsub := filterMap_map_sublist
      (fun p => bestMatchFor (dss.enum.filter fun q =>
        !(ces.any fun e => e.doc_id == some q.2.id)) p.1 p.2)
      (·.entity_index) Prod.fst
      (fun a b hab => bestMatchFor_entity_index hab)
      (ces.enum.filter fun p => p.2.doc_id.isNone)
    have hsub2 : ((ces.enum.filter fun p => p.2.doc_id.isNone).map Prod.fst).Sublist
        (ces.enum.map Prod.fst) := (List.filter_sublist _).map _
    rw [List.enum_map_fst] at hsub2
    exact (hsub.trans hsub2).nodup (List.nodup_range _)

/-- Witness for C5: the per-entity best-candidate characterization at a
concrete singleton section list. -/
theorem C5_find_candidates_matching_witness :
    ∃ us₁ p us₂, ([(0, secSelfLogin)] : List (Nat × DocSection)) = us₁ ++ p :: us₂ ∧
      candSelf = candidateFor 0 entPlainLogin p.1 p.2
        (compute_confidence entPlainLogin.name p.2) ∧
      MIN_CONFIDENCE ≤ compute_confidence entPlainLogin.name p.2 ∧
      (∀ q ∈ us₁, MIN_CONFIDENCE ≤ compute_confidence entPlainLogin.name q.2 →
        compute_confidence entPlainLogin.name q.2 <
          compute_confidence entPlainLogin.name p.2) ∧
      (∀ q ∈ us₂, MIN_CONFIDENCE ≤ compute_confidence entPlainLogin.name q.2 →
        compute_confidence entPlainLogin.name q.2 ≤
          compute_confidence entPlainLogin.name p.2) :=
  C5_find_candidates_matching.2.2.2.1 [(0, secSelfLogin)] 0 entPlainLogin candSelf
    (by decide)
